import Mathlib

/-!
Verification of `crypto_price_tracker.py`: a shallow embedding of its
record parsing, extraction loop, CSV persistence, presentation and
gainers/losers analysis, with theorems settling the spec's claims.
-/

/-- A coin snapshot: the dictionary built for each parsed row
(`Rank`, `Name`, `Symbol`, `Price`, `24h_Change`, `Market_Cap`, `Timestamp`). -/
structure Coin where
  Rank : Nat
  Name : String
  Symbol : String
  Price : String
  change_24h : String
  Market_Cap : String
  Timestamp : String
deriving DecidableEq, Repr

/-- Splitting a character list at a separator character, accumulator style:
models Python `str.split(sep)` for a one-character separator. -/
def splitCharAux (sep : Char) : List Char → List Char → List String
  | [], acc => [String.mk acc.reverse]
  | c :: cs, acc =>
    if c = sep then String.mk acc.reverse :: splitCharAux sep cs []
    else splitCharAux sep cs (c :: acc)

/-- Python `s.split(sep)` for a one-character separator `sep`. -/
def splitChar (sep : Char) (s : String) : List String :=
  splitCharAux sep s.toList []

/-- Python `row.text.split(chr(10))`: the row text cut into line fragments. -/
def splitLines (s : String) : List String :=
  splitChar (Char.ofNat 10) s

/-- Python `s.replace(c, emptystring)`: drops every occurrence of the character. -/
def removeChar (c : Char) (s : String) : String :=
  String.mk (s.toList.filter (fun x => x ≠ c))

/-- Python `s.startswith(c)` for a one-character argument. -/
def startsWithChar (c : Char) (s : String) : Bool :=
  match s.toList with
  | [] => false
  | x :: _ => x = c

/-- Numeric value of a digit string read left to right. -/
def digitsVal (l : List Char) : Nat :=
  l.foldl (fun a c => 10 * a + (c.toNat - 48)) 0

/-- A signed decimal value `±mant / 10 ^ exp`: the result of Python `float`
on a plain decimal literal, kept unnormalised so that evaluation stays
within integer arithmetic. -/
structure Dec where
  neg : Bool
  mant : Nat
  exp : Nat
deriving DecidableEq, Repr

/-- The signed mantissa of a decimal value. -/
def Dec.toInt (d : Dec) : ℤ :=
  if d.neg then -(d.mant : ℤ) else (d.mant : ℤ)

/-- The rational number a decimal value denotes. -/
def Dec.toRat (d : Dec) : ℚ :=
  (d.toInt : ℚ) / (10 : ℚ) ^ d.exp

/-- Strict comparison of two decimal values by cross multiplication;
agrees with `<` on the denoted rationals (`Dec.blt_iff`). -/
def Dec.blt (a b : Dec) : Bool :=
  a.toInt * 10 ^ b.exp < b.toInt * 10 ^ a.exp

/-- Parse an unsigned decimal literal (digits with an optional decimal
point, at least one digit overall) into a decimal value. -/
def pyFloatAux (neg : Bool) (cs : List Char) : Option Dec :=
  match splitCharAux '.' cs [] with
  | [a] =>
    if !a.isEmpty && a.toList.all Char.isDigit then
      some ⟨neg, digitsVal a.toList, 0⟩
    else none
  | [a, b] =>
    if (!a.isEmpty || !b.isEmpty) && a.toList.all Char.isDigit
        && b.toList.all Char.isDigit then
      some ⟨neg, digitsVal a.toList * 10 ^ b.toList.length + digitsVal b.toList,
            b.toList.length⟩
    else none
  | _ => none

/-- Python `float(s)` on plain decimal literals, modelled with exact decimal
arithmetic: an optional sign followed by digits with an optional decimal
point. Returns `none` where `float` raises `ValueError`. -/
def pyFloat (s : String) : Option Dec :=
  match s.toList with
  | '-' :: rest => pyFloatAux true rest
  | '+' :: rest => pyFloatAux false rest
  | cs => pyFloatAux false cs

/-- The body of the row loop in `scrape_crypto_prices` for one row's
fragment list `row_data` at 1-based position `i`: when at least 6 fragments
are present, build the coin dictionary (name, symbol, price, change and
market cap from fragments 1-5; fragment 0 discarded); otherwise no record. -/
def parseFragments (row_data : List String) (i : Nat) (ts : String) : Option Coin :=
  if 6 ≤ row_data.length then
    some { Rank := i
           Name := row_data.getD 1 ""
           Symbol := row_data.getD 2 ""
           Price := row_data.getD 3 ""
           change_24h := row_data.getD 4 ""
           Market_Cap := if 5 < row_data.length then row_data.getD 5 "" else "N/A"
           Timestamp := ts }
  else none

/-- Parsing one raw row: `row.text.split` into line fragments, then the
fragment mapping of `parseFragments`. -/
def parseRow (rowText : String) (i : Nat) (ts : String) : Option Coin :=
  parseFragments (splitLines rowText) i ts

/-- The enumeration loop of `scrape_crypto_prices`: walks the row texts with
a 1-based counter that advances on every row, collecting the rows that parse.
A row that yields no record is skipped but still consumes its counter value. -/
def scrapeLoop (ts : String) : List String → Nat → List Coin
  | [], _ => []
  | r :: rs, i =>
    match parseRow r i ts with
    | some c => c :: scrapeLoop ts rs (i + 1)
    | none => scrapeLoop ts rs (i + 1)

/-- The record extraction of `scrape_crypto_prices` over the collected row
texts: at most the first 10 rows, enumerated from 1. -/
def scrapeRows (rows : List String) (ts : String) : List Coin :=
  scrapeLoop ts (rows.take 10) 1

/-- The state of the CSV store file: absent (`read_csv` raises
`FileNotFoundError`), present with its rows, or present but unreadable
(`read_csv` raises some other error). -/
inductive FileState where
  | absent
  | present (rows : List Coin)
  | unreadable
deriving DecidableEq, Repr

/-- `save_to_csv`: reject an empty batch without touching the store;
otherwise merge with the readable existing rows (new rows after old) or
create a fresh store, reporting `false` on any read or write error.
`writeOk` is whether the `to_csv` write succeeds. -/
def save_to_csv (data : List Coin) (fs : FileState) (writeOk : Bool) :
    Bool × FileState :=
  if data.isEmpty then (false, fs)
  else
    match fs with
    | FileState.present old =>
      if writeOk then (true, FileState.present (old ++ data)) else (false, fs)
    | FileState.absent =>
      if writeOk then (true, FileState.present data) else (false, FileState.absent)
    | FileState.unreadable => (false, fs)

/-- The `max(gainers, key=...)` key: `float` of the change text with `+`
and `%` characters removed. -/
def gainKey (c : Coin) : Option Dec :=
  pyFloat (removeChar '%' (removeChar '+' c.change_24h))

/-- The `min(losers, key=...)` key: `float` of the change text with `-`
and `%` characters removed. -/
def loseKey (c : Coin) : Option Dec :=
  pyFloat (removeChar '%' (removeChar '-' c.change_24h))

/-- Python `max` with a fallible key, after the first element: keep the
current best `b` (key value `kb`) unless a later element's key is strictly
greater; `none` models the key function raising. -/
def pyMaxGo (key : Coin → Option Dec) : Coin → Dec → List Coin → Option Coin
  | b, _, [] => some b
  | b, kb, y :: ys =>
    match key y with
    | none => none
    | some ky => if kb.blt ky then pyMaxGo key y ky ys else pyMaxGo key b kb ys

/-- Python `max(l, key=...)`: first element with the greatest key; `none`
models an exception (empty list or key failure). -/
def pyMax (key : Coin → Option Dec) : List Coin → Option Coin
  | [] => none
  | x :: xs =>
    match key x with
    | none => none
    | some kx => pyMaxGo key x kx xs

/-- Python `min` with a fallible key, after the first element: keep the
current best `b` (key value `kb`) unless a later element's key is strictly
smaller; `none` models the key function raising. -/
def pyMinGo (key : Coin → Option Dec) : Coin → Dec → List Coin → Option Coin
  | b, _, [] => some b
  | b, kb, y :: ys =>
    match key y with
    | none => none
    | some ky => if ky.blt kb then pyMinGo key y ky ys else pyMinGo key b kb ys

/-- Python `min(l, key=...)`: first element with the least key; `none`
models an exception (empty list or key failure). -/
def pyMin (key : Coin → Option Dec) : List Coin → Option Coin
  | [] => none
  | x :: xs =>
    match key x with
    | none => none
    | some kx => pyMinGo key x kx xs

/-- The observable outcome of `analyze_data`: the gainer and loser
partitions and the reported extremes. In `topGainer` and `topLoser` the
outer `none` marks a raised `ValueError` (a key failed), inner `none`
marks an empty partition (nothing reported). -/
structure Analysis where
  gainers : List Coin
  losers : List Coin
  topGainer : Option (Option Coin)
  topLoser : Option (Option Coin)
deriving DecidableEq, Repr

/-- `analyze_data`: on an empty batch return at once; otherwise partition
into gainers (change starts with `+`) and losers (change starts with `-`)
and compute the reported extreme of each non-empty partition. -/
def analyze_data (data : List Coin) : Analysis :=
  if data.isEmpty then ⟨[], [], some none, some none⟩
  else
    let gainers := data.filter (fun c => startsWithChar '+' c.change_24h)
    let losers := data.filter (fun c => startsWithChar '-' c.change_24h)
    ⟨gainers, losers,
     if gainers.isEmpty then some none else (pyMax gainKey gainers).map some,
     if losers.isEmpty then some none else (pyMin loseKey losers).map some⟩

/-- Left-justified padding to a field width: Python format `{x:<w}`. -/
def padRight (s : String) (w : Nat) : String :=
  s ++ String.mk (List.replicate (w - s.length) ' ')

/-- The change column of `display_data`: an indicator glyph chosen by the
sign prefix of the change text. -/
def changeDisplay (change : String) : String :=
  if startsWithChar '+' change then "🟢 " ++ change
  else if startsWithChar '-' change then "🔴 " ++ change
  else "⚪ " ++ change

/-- One body line of the `display_data` table. -/
def coinLine (c : Coin) : String :=
  padRight (toString c.Rank) 4 ++ " " ++ padRight c.Name 15 ++ " "
    ++ padRight c.Price 15 ++ " " ++ padRight (changeDisplay c.change_24h) 12
    ++ " " ++ padRight c.Market_Cap 20

/-- `display_data`: the printed lines — a refusal message on an empty batch,
otherwise the banner, the column headers and one line per coin. -/
def display_data (data : List Coin) : List String :=
  if data.isEmpty then ["❌ No data to display!"]
  else
    ["", String.mk (List.replicate 80 '='),
     "🎯 TOP 10 CRYPTOCURRENCIES - LIVE PRICES",
     String.mk (List.replicate 80 '='),
     padRight "Rank" 4 ++ " " ++ padRight "Name" 15 ++ " " ++ padRight "Price" 15
       ++ " " ++ padRight "24h Change" 12 ++ " " ++ padRight "Market Cap" 20,
     String.mk (List.replicate 80 '-')]
    ++ data.map coinLine

/-- The environment of one run: the outcomes of the external effects.
`launchError` is a raised exception from `setup_driver` (before the `try`
block), `pageError` one from navigation or the table wait (inside it),
`rows` the row texts collected when the page loads, `ts` the capture
timestamp, `fstate` the CSV store state and `writeOk` whether a write
would succeed. -/
structure Env where
  launchError : Option String
  pageError : Option String
  rows : List String
  ts : String
  fstate : FileState
  writeOk : Bool

/-- The batch a run extracts once the session is up: empty when navigation
or the table wait raises (caught inside the `try` block), otherwise the
parsed rows. -/
def scrapedData (env : Env) : List Coin :=
  match env.pageError with
  | some _ => []
  | none => scrapeRows env.rows env.ts

/-- `scrape_crypto_prices` as a function of the environment. `setup_driver`
runs before the `try` block, so a launch exception propagates; a page
exception is caught inside and leaves the accumulated (empty) list. -/
def scrape_crypto_prices (env : Env) : Except String (List Coin) :=
  match env.launchError with
  | some e => Except.error e
  | none => Except.ok (scrapedData env)

/-- Whether `analyze_data` raises a `ValueError`: some reported extreme's
key computation failed. -/
def analyzeRaises (data : List Coin) : Bool :=
  ((analyze_data data).topGainer).isNone || ((analyze_data data).topLoser).isNone

/-- `main`: scrape, and on a non-empty batch display, save and analyze.
The result is the batch and the final store state, or the uncaught
exception the run dies with. -/
def main_run (env : Env) : Except String (List Coin × FileState) :=
  match scrape_crypto_prices env with
  | Except.error e => Except.error e
  | Except.ok data =>
    if data.isEmpty then Except.ok (data, env.fstate)
    else
      let saved := save_to_csv data env.fstate env.writeOk
      if analyzeRaises data then Except.error "ValueError"
      else Except.ok (data, saved.2)

/-- `display_data` with the batch it leaves behind: the function reads the
coin dictionaries and never assigns to them or to the list. -/
def display_run (data : List Coin) : List String × List Coin :=
  (display_data data, data)

/-- `save_to_csv` with the batch it leaves behind: the function copies the
rows into a data frame and never assigns to the dictionaries or the list. -/
def save_run (data : List Coin) (fs : FileState) (writeOk : Bool) :
    (Bool × FileState) × List Coin :=
  (save_to_csv data fs writeOk, data)

/-- `analyze_data` with the batch it leaves behind: the function filters
and reads the coin dictionaries and never assigns to them or to the list. -/
def analyze_run (data : List Coin) : Analysis × List Coin :=
  (analyze_data data, data)

/-- A sample coin used to instantiate theorems on concrete inputs. -/
def sample (r : Nat) (change : String) : Coin :=
  ⟨r, "Name", "SYM", "$1", change, "$1B", "t"⟩

/-- Claim C1: a raw row whose text splits into at least 6 line fragments
parses at 1-based position `i` to exactly one snapshot with rank `i` and
name, symbol, price, change and market cap taken from fragments 1-5
(fragment 0 discarded). -/
theorem parseRow_six_fragments (rowText : String) (i : Nat) (ts : String)
    (h : 6 ≤ (splitLines rowText).length) :
    parseRow rowText i ts = some
      ⟨i, (splitLines rowText).getD 1 "", (splitLines rowText).getD 2 "",
       (splitLines rowText).getD 3 "", (splitLines rowText).getD 4 "",
       (splitLines rowText).getD 5 "", ts⟩ := by
  unfold parseRow parseFragments
  rw [if_pos h, if_pos (by omega)]

/-- Witness for C1: the scrape of the spec's Bitcoin row at position 1. -/
theorem parseRow_six_fragments_witness :
    parseRow "\nBitcoin\nBTC\n$60,000\n+2.5%\n$1.2T" 1 "t" =
      some ⟨1, "Bitcoin", "BTC", "$60,000", "+2.5%", "$1.2T", "t"⟩ := by
  rw [parseRow_six_fragments "\nBitcoin\nBTC\n$60,000\n+2.5%\n$1.2T" 1 "t" (by decide)]
  decide

/-- Claim C9: a raw row whose text splits into fewer than 6 line fragments
yields no snapshot, and the scrape loop continues with the remaining rows. -/
theorem parseRow_short_row (r : String) (i : Nat) (ts : String)
    (rest : List String) (h : (splitLines r).length < 6) :
    parseRow r i ts = none ∧
      scrapeLoop ts (r :: rest) i = scrapeLoop ts rest (i + 1) := by
  have hp : parseRow r i ts = none := by
    unfold parseRow parseFragments
    rw [if_neg (by omega)]
  exact ⟨hp, by simp [scrapeLoop, hp]⟩

/-- Witness for C9: a one-fragment row is skipped and the loop moves on. -/
theorem parseRow_short_row_witness :
    parseRow "x" 1 "t" = none ∧
      scrapeLoop "t" ["x", "\nBitcoin\nBTC\n$60,000\n+2.5%\n$1.2T"] 1 =
        scrapeLoop "t" ["\nBitcoin\nBTC\n$60,000\n+2.5%\n$1.2T"] 2 :=
  parseRow_short_row "x" 1 "t" ["\nBitcoin\nBTC\n$60,000\n+2.5%\n$1.2T"] (by decide)

/-- Claim C5: appending a non-empty batch to an existing readable store with
`N` prior rows succeeds and yields the store with the prior rows unchanged,
in order, before the new rows, and `N` plus batch size rows in total. -/
theorem save_append (data old : List Coin) (h : data ≠ []) :
    save_to_csv data (FileState.present old) true =
      (true, FileState.present (old ++ data)) ∧
      (old ++ data).length = old.length + data.length ∧
      (old ++ data).take old.length = old := by
  refine ⟨?_, List.length_append old data, List.take_left old data⟩
  simp [save_to_csv, h]

/-- Witness for C5: appending one coin to a one-row store. -/
theorem save_append_witness :
    save_to_csv [sample 2 "-1.0%"] (FileState.present [sample 1 "+2.5%"]) true =
      (true, FileState.present ([sample 1 "+2.5%"] ++ [sample 2 "-1.0%"])) ∧
      ([sample 1 "+2.5%"] ++ [sample 2 "-1.0%"]).length =
        [sample 1 "+2.5%"].length + [sample 2 "-1.0%"].length ∧
      ([sample 1 "+2.5%"] ++ [sample 2 "-1.0%"]).take [sample 1 "+2.5%"].length =
        [sample 1 "+2.5%"] :=
  save_append [sample 2 "-1.0%"] [sample 1 "+2.5%"] (by decide)

/-- Claim C6: persistence returns failure exactly when the batch is empty
(leaving the store untouched) or an I/O error occurs during the read or the
write, and success in every other case. -/
theorem save_failure_iff (data : List Coin) (fs : FileState) (writeOk : Bool) :
    ((save_to_csv data fs writeOk).1 = false ↔
      data = [] ∨ fs = FileState.unreadable ∨ writeOk = false) ∧
    (data = [] → (save_to_csv data fs writeOk).2 = fs) := by
  cases fs <;> cases writeOk <;> cases data <;> simp [save_to_csv]

/-- Witness for C6: an empty batch leaves an existing store unmodified. -/
theorem save_failure_iff_witness :
    (save_to_csv [] (FileState.present [sample 1 "+2.5%"]) true).2 =
      FileState.present [sample 1 "+2.5%"] :=
  (save_failure_iff [] (FileState.present [sample 1 "+2.5%"]) true).2 rfl

/-- Claim C10: display, persistence and analysis leave the in-memory batch
unchanged: each hands the identical snapshot list to the next consumer. -/
theorem batch_unchanged (data : List Coin) (fs : FileState) (writeOk : Bool) :
    (display_run data).2 = data ∧ (save_run data fs writeOk).2 = data ∧
      (analyze_run data).2 = data :=
  ⟨rfl, rfl, rfl⟩

/-- A parsed row carries the rank it was enumerated with. -/
theorem parseRow_rank (r : String) (i : Nat) (ts : String) (c : Coin)
    (h : parseRow r i ts = some c) : c.Rank = i := by
  unfold parseRow parseFragments at h
  split at h
  · injection h with h'
    subst h'
    rfl
  · simp at h

/-- The scrape loop yields at most one snapshot per row. -/
theorem scrapeLoop_length_le (ts : String) (l : List String) :
    ∀ i, (scrapeLoop ts l i).length ≤ l.length := by
  induction l with
  | nil => intro i; simp [scrapeLoop]
  | cons r rs ih =>
    intro i
    rw [scrapeLoop]
    cases hp : parseRow r i ts with
    | none => exact Nat.le_trans (ih (i + 1)) (by simp)
    | some c0 =>
      simp only [List.length_cons]
      exact Nat.succ_le_succ (ih (i + 1))

/-- Every snapshot the scrape loop yields has its rank in the counter window
of the rows it walked. -/
theorem scrapeLoop_rank_bound (ts : String) (l : List String) :
    ∀ i, ∀ c ∈ scrapeLoop ts l i, i ≤ c.Rank ∧ c.Rank < i + l.length := by
  induction l with
  | nil => intro i c hc; simp [scrapeLoop] at hc
  | cons r rs ih =>
    intro i c hc
    rw [scrapeLoop] at hc
    cases hp : parseRow r i ts with
    | none =>
      rw [hp] at hc
      have h := ih (i + 1) c hc
      exact ⟨by omega, by simp; omega⟩
    | some c0 =>
      rw [hp] at hc
      rcases List.mem_cons.mp hc with h | h
      · subst h
        have := parseRow_rank r i ts c hp
        simp [this]
      · have h' := ih (i + 1) c h
        exact ⟨by omega, by simp; omega⟩

/-- The ranks the scrape loop yields are strictly increasing. -/
theorem scrapeLoop_ranks_sorted (ts : String) (l : List String) :
    ∀ i, ((scrapeLoop ts l i).map Coin.Rank).Pairwise (· < ·) := by
  induction l with
  | nil => intro i; simp [scrapeLoop]
  | cons r rs ih =>
    intro i
    rw [scrapeLoop]
    cases hp : parseRow r i ts with
    | none => exact ih (i + 1)
    | some c0 =>
      rw [List.map_cons, List.pairwise_cons]
      constructor
      · intro a ha
        obtain ⟨d, hd, rfl⟩ := List.mem_map.mp ha
        have hb := scrapeLoop_rank_bound ts rs (i + 1) d hd
        have := parseRow_rank r i ts c0 hp
        omega
      · exact ih (i + 1)

/-- When every row walked parses, the scrape loop's ranks are exactly the
consecutive counter values. -/
theorem scrapeLoop_ranks_all (ts : String) (l : List String) :
    ∀ i, (∀ r ∈ l, 6 ≤ (splitLines r).length) →
      (scrapeLoop ts l i).map Coin.Rank = List.range' i l.length := by
  induction l with
  | nil => intro i _; simp [scrapeLoop]
  | cons r rs ih =>
    intro i hall
    have h6 : 6 ≤ (splitLines r).length := hall r (List.mem_cons_self r rs)
    have hp : parseRow r i ts = some
        ⟨i, (splitLines r).getD 1 "", (splitLines r).getD 2 "",
         (splitLines r).getD 3 "", (splitLines r).getD 4 "",
         (splitLines r).getD 5 "", ts⟩ := by
      unfold parseRow parseFragments
      rw [if_pos h6, if_pos (by omega)]
    rw [scrapeLoop, hp, List.map_cons,
      ih (i + 1) (fun x hx => hall x (List.mem_cons_of_mem r hx))]
    rfl

/-- Cross-multiplied comparison of decimal values agrees with comparison of
the rationals they denote. -/
theorem Dec.blt_iff (a b : Dec) : a.blt b = true ↔ a.toRat < b.toRat := by
  rw [Dec.blt, Dec.toRat, Dec.toRat, decide_eq_true_eq,
    div_lt_div_iff₀ (by positivity) (by positivity)]
  constructor <;> intro h <;> exact_mod_cast h

/-- After the first element, Python `max` with a total key returns an
element of the candidates whose key is at least the running best and at
least every candidate's key. -/
theorem pyMaxGo_spec (key : Coin → Option Dec) (l : List Coin) :
    ∀ (b : Coin) (kb : Dec), key b = some kb →
      (∀ y ∈ l, (key y).isSome = true) →
      ∃ g kg, pyMaxGo key b kb l = some g ∧ (g = b ∨ g ∈ l) ∧
        key g = some kg ∧ kb.toRat ≤ kg.toRat ∧
        ∀ y ∈ l, ∀ ky, key y = some ky → ky.toRat ≤ kg.toRat := by
  induction l with
  | nil =>
    intro b kb hb _
    exact ⟨b, kb, rfl, Or.inl rfl, hb, le_refl _, by simp⟩
  | cons y ys ih =>
    intro b kb hb hall
    obtain ⟨ky, hky⟩ :=
      Option.isSome_iff_exists.mp (hall y (List.mem_cons_self y ys))
    have hys : ∀ z ∈ ys, (key z).isSome = true :=
      fun z hz => hall z (List.mem_cons_of_mem y hz)
    by_cases hlt : kb.blt ky = true
    · obtain ⟨g, kg, h1, h2, h3, h4, h5⟩ := ih y ky hky hys
      refine ⟨g, kg, ?_, ?_, h3, ?_, ?_⟩
      · rw [pyMaxGo, hky]
        simp only [if_pos hlt]
        exact h1
      · rcases h2 with rfl | h2
        · exact Or.inr (List.mem_cons_self _ _)
        · exact Or.inr (List.mem_cons_of_mem _ h2)
      · exact le_trans (le_of_lt ((Dec.blt_iff kb ky).mp hlt)) h4
      · intro z hz kz hkz
        rcases List.mem_cons.mp hz with rfl | hz'
        · rw [hky] at hkz
          obtain rfl := Option.some.inj hkz
          exact h4
        · exact h5 z hz' kz hkz
    · obtain ⟨g, kg, h1, h2, h3, h4, h5⟩ := ih b kb hb hys
      refine ⟨g, kg, ?_, ?_, h3, h4, ?_⟩
      · rw [pyMaxGo, hky]
        simp only [if_neg hlt]
        exact h1
      · rcases h2 with rfl | h2
        · exact Or.inl rfl
        · exact Or.inr (List.mem_cons_of_mem _ h2)
      · intro z hz kz hkz
        rcases List.mem_cons.mp hz with rfl | hz'
        · rw [hky] at hkz
          obtain rfl := Option.some.inj hkz
          have hnlt : ¬ kb.toRat < ky.toRat :=
            fun hc => hlt ((Dec.blt_iff kb ky).mpr hc)
          exact le_trans (le_of_not_lt hnlt) h4
        · exact h5 z hz' kz hkz

/-- Python `max` with a total key over a non-empty list returns a member
whose key is at least every member's key. -/
theorem pyMax_spec (key : Coin → Option Dec) (l : List Coin) (h0 : l ≠ [])
    (hall : ∀ y ∈ l, (key y).isSome = true) :
    ∃ g kg, pyMax key l = some g ∧ g ∈ l ∧ key g = some kg ∧
      ∀ y ∈ l, ∀ ky, key y = some ky → ky.toRat ≤ kg.toRat := by
  match l, h0 with
  | x :: xs, _ =>
    obtain ⟨kx, hkx⟩ :=
      Option.isSome_iff_exists.mp (hall x (List.mem_cons_self x xs))
    obtain ⟨g, kg, h1, h2, h3, h4, h5⟩ :=
      pyMaxGo_spec key xs x kx hkx
        (fun z hz => hall z (List.mem_cons_of_mem x hz))
    refine ⟨g, kg, ?_, ?_, h3, ?_⟩
    · rw [pyMax, hkx]
      exact h1
    · rcases h2 with rfl | h2
      · exact List.mem_cons_self _ _
      · exact List.mem_cons_of_mem _ h2
    · intro y hy ky hky
      rcases List.mem_cons.mp hy with rfl | hy'
      · rw [hkx] at hky
        obtain rfl := Option.some.inj hky
        exact h4
      · exact h5 y hy' ky hky

/-- After the first element, Python `min` with a total key returns an
element of the candidates whose key is at most the running best and at
most every candidate's key. -/
theorem pyMinGo_spec (key : Coin → Option Dec) (l : List Coin) :
    ∀ (b : Coin) (kb : Dec), key b = some kb →
      (∀ y ∈ l, (key y).isSome = true) →
      ∃ g kg, pyMinGo key b kb l = some g ∧ (g = b ∨ g ∈ l) ∧
        key g = some kg ∧ kg.toRat ≤ kb.toRat ∧
        ∀ y ∈ l, ∀ ky, key y = some ky → kg.toRat ≤ ky.toRat := by
  induction l with
  | nil =>
    intro b kb hb _
    exact ⟨b, kb, rfl, Or.inl rfl, hb, le_refl _, by simp⟩
  | cons y ys ih =>
    intro b kb hb hall
    obtain ⟨ky, hky⟩ :=
      Option.isSome_iff_exists.mp (hall y (List.mem_cons_self y ys))
    have hys : ∀ z ∈ ys, (key z).isSome = true :=
      fun z hz => hall z (List.mem_cons_of_mem y hz)
    by_cases hlt : ky.blt kb = true
    · obtain ⟨g, kg, h1, h2, h3, h4, h5⟩ := ih y ky hky hys
      refine ⟨g, kg, ?_, ?_, h3, ?_, ?_⟩
      · rw [pyMinGo, hky]
        simp only [if_pos hlt]
        exact h1
      · rcases h2 with rfl | h2
        · exact Or.inr (List.mem_cons_self _ _)
        · exact Or.inr (List.mem_cons_of_mem _ h2)
      · exact le_trans h4 (le_of_lt ((Dec.blt_iff ky kb).mp hlt))
      · intro z hz kz hkz
        rcases List.mem_cons.mp hz with rfl | hz'
        · rw [hky] at hkz
          obtain rfl := Option.some.inj hkz
          exact h4
        · exact h5 z hz' kz hkz
    · obtain ⟨g, kg, h1, h2, h3, h4, h5⟩ := ih b kb hb hys
      refine ⟨g, kg, ?_, ?_, h3, h4, ?_⟩
      · rw [pyMinGo, hky]
        simp only [if_neg hlt]
        exact h1
      · rcases h2 with rfl | h2
        · exact Or.inl rfl
        · exact Or.inr (List.mem_cons_of_mem _ h2)
      · intro z hz kz hkz
        rcases List.mem_cons.mp hz with rfl | hz'
        · rw [hky] at hkz
          obtain rfl := Option.some.inj hkz
          have hnlt : ¬ ky.toRat < kb.toRat :=
            fun hc => hlt ((Dec.blt_iff ky kb).mpr hc)
          exact le_trans h4 (le_of_not_lt hnlt)
        · exact h5 z hz' kz hkz

/-- Python `min` with a total key over a non-empty list returns a member
whose key is at most every member's key. -/
theorem pyMin_spec (key : Coin → Option Dec) (l : List Coin) (h0 : l ≠ [])
    (hall : ∀ y ∈ l, (key y).isSome = true) :
    ∃ g kg, pyMin key l = some g ∧ g ∈ l ∧ key g = some kg ∧
      ∀ y ∈ l, ∀ ky, key y = some ky → kg.toRat ≤ ky.toRat := by
  match l, h0 with
  | x :: xs, _ =>
    obtain ⟨kx, hkx⟩ :=
      Option.isSome_iff_exists.mp (hall x (List.mem_cons_self x xs))
    obtain ⟨g, kg, h1, h2, h3, h4, h5⟩ :=
      pyMinGo_spec key xs x kx hkx
        (fun z hz => hall z (List.mem_cons_of_mem x hz))
    refine ⟨g, kg, ?_, ?_, h3, ?_⟩
    · rw [pyMin, hkx]
      exact h1
    · rcases h2 with rfl | h2
      · exact List.mem_cons_self _ _
      · exact List.mem_cons_of_mem _ h2
    · intro y hy ky hky
      rcases List.mem_cons.mp hy with rfl | hy'
      · rw [hkx] at hky
        obtain rfl := Option.some.inj hky
        exact h4
      · exact h5 y hy' ky hky

/-- The gainer partition of the analysis is the filter of the batch by a
leading plus sign. -/
theorem analyze_data_gainers (data : List Coin) :
    (analyze_data data).gainers =
      data.filter (fun c => startsWithChar '+' c.change_24h) := by
  unfold analyze_data
  split
  · next h =>
    rw [List.isEmpty_iff.mp h]
    rfl
  · rfl

/-- The loser partition of the analysis is the filter of the batch by a
leading minus sign. -/
theorem analyze_data_losers (data : List Coin) :
    (analyze_data data).losers =
      data.filter (fun c => startsWithChar '-' c.change_24h) := by
  unfold analyze_data
  split
  · next h =>
    rw [List.isEmpty_iff.mp h]
    rfl
  · rfl

/-- On a non-empty batch the reported top gainer is `max` of the gainer
partition by the stripped key. -/
theorem analyze_data_topGainer (data : List Coin) (h : data ≠ []) :
    (analyze_data data).topGainer =
      (if (data.filter (fun c => startsWithChar '+' c.change_24h)).isEmpty
       then some none
       else (pyMax gainKey
        (data.filter (fun c => startsWithChar '+' c.change_24h))).map some) := by
  unfold analyze_data
  rw [if_neg (by simpa [List.isEmpty_iff] using h)]

/-- On a non-empty batch the reported top loser is `min` of the loser
partition by the stripped key. -/
theorem analyze_data_topLoser (data : List Coin) (h : data ≠ []) :
    (analyze_data data).topLoser =
      (if (data.filter (fun c => startsWithChar '-' c.change_24h)).isEmpty
       then some none
       else (pyMin loseKey
        (data.filter (fun c => startsWithChar '-' c.change_24h))).map some) := by
  unfold analyze_data
  rw [if_neg (by simpa [List.isEmpty_iff] using h)]

/-- Counterexample to claim C3: with a malformed second row among three, the
extraction yields ranks 1 and 3 — unique but not contiguous. -/
theorem scrape_ranks_gap_cex :
    ((scrapeRows ["\nBitcoin\nBTC\n$60,000\n+2.5%\n$1.2T", "x",
        "\nEther\nETH\n$3,000\n-1.0%\n$400B"] "t").map Coin.Rank = [1, 3]) ∧
    ¬ ((scrapeRows ["\nBitcoin\nBTC\n$60,000\n+2.5%\n$1.2T", "x",
        "\nEther\nETH\n$3,000\n-1.0%\n$400B"] "t").map Coin.Rank =
      List.range' 1 (scrapeRows ["\nBitcoin\nBTC\n$60,000\n+2.5%\n$1.2T", "x",
        "\nEther\nETH\n$3,000\n-1.0%\n$400B"] "t").length) := by
  decide

/-- Claim C3 as amended: every run yields at most 10 snapshots whose ranks
are strictly increasing (hence unique) and between 1 and 10; ranks are
contiguous from 1 whenever no considered row is discarded for having fewer
than 6 fragments. -/
theorem scrape_ranks (rows : List String) (ts : String) :
    (scrapeRows rows ts).length ≤ 10 ∧
    ((scrapeRows rows ts).map Coin.Rank).Pairwise (· < ·) ∧
    (∀ c ∈ scrapeRows rows ts, 1 ≤ c.Rank ∧ c.Rank ≤ 10) ∧
    ((∀ r ∈ rows.take 10, 6 ≤ (splitLines r).length) →
      (scrapeRows rows ts).map Coin.Rank = List.range' 1 (rows.take 10).length) := by
  have htake : (rows.take 10).length ≤ 10 := by
    simp [List.length_take]
  refine ⟨?_, scrapeLoop_ranks_sorted ts (rows.take 10) 1, ?_, ?_⟩
  · exact Nat.le_trans (scrapeLoop_length_le ts (rows.take 10) 1) htake
  · intro c hc
    have := scrapeLoop_rank_bound ts (rows.take 10) 1 c hc
    omega
  · exact scrapeLoop_ranks_all ts (rows.take 10) 1

/-- Witness for C3 as amended: two well-formed rows give contiguous
ranks 1, 2. -/
theorem scrape_ranks_witness :
    (scrapeRows ["\nBitcoin\nBTC\n$60,000\n+2.5%\n$1.2T",
        "\nEther\nETH\n$3,000\n-1.0%\n$400B"] "t").map Coin.Rank = [1, 2] := by
  rw [(scrape_ranks ["\nBitcoin\nBTC\n$60,000\n+2.5%\n$1.2T",
    "\nEther\nETH\n$3,000\n-1.0%\n$400B"] "t").2.2.2 (by decide)]
  decide

/-- Claim C7: the analysis counts as gainers exactly the snapshots whose
change text starts with a plus sign and as losers exactly those starting
with a minus sign; a snapshot with neither sign is in neither partition,
so a batch of only unsigned changes reports 0 gainers and 0 losers. -/
theorem analyze_partition (data : List Coin) :
    (∀ c, c ∈ (analyze_data data).gainers ↔
      c ∈ data ∧ startsWithChar '+' c.change_24h = true) ∧
    (∀ c, c ∈ (analyze_data data).losers ↔
      c ∈ data ∧ startsWithChar '-' c.change_24h = true) ∧
    ((∀ c ∈ data, startsWithChar '+' c.change_24h = false ∧
        startsWithChar '-' c.change_24h = false) →
      (analyze_data data).gainers.length = 0 ∧
        (analyze_data data).losers.length = 0) := by
  rw [analyze_data_gainers, analyze_data_losers]
  refine ⟨fun c => List.mem_filter, fun c => List.mem_filter, fun hall => ?_⟩
  constructor <;>
    · rw [List.length_eq_zero, List.filter_eq_nil_iff]
      intro c hc
      simp [(hall c hc).1, (hall c hc).2]

/-- Witness for C7: a batch whose only change value is an unsigned
percentage reports 0 gainers and 0 losers. -/
theorem analyze_partition_witness :
    (analyze_data [sample 1 "0.0%"]).gainers.length = 0 ∧
      (analyze_data [sample 1 "0.0%"]).losers.length = 0 :=
  (analyze_partition [sample 1 "0.0%"]).2.2 (by decide)

/-- Claim C8: when the gainer partition is non-empty and the stripped
change values convert, the reported top gainer is a gainer whose change
value after stripping the plus sign and percent suffix is maximal. -/
theorem analyze_top_gainer (data : List Coin)
    (h1 : (analyze_data data).gainers ≠ [])
    (h2 : ∀ c ∈ (analyze_data data).gainers, (gainKey c).isSome = true) :
    ∃ g kg, (analyze_data data).topGainer = some (some g) ∧
      g ∈ (analyze_data data).gainers ∧ gainKey g = some kg ∧
      ∀ c ∈ (analyze_data data).gainers, ∀ kc, gainKey c = some kc →
        kc.toRat ≤ kg.toRat := by
  have hd : data ≠ [] := by
    intro h
    subst h
    exact h1 (by rw [analyze_data_gainers]; rfl)
  rw [analyze_data_gainers] at h1 h2 ⊢
  obtain ⟨g, kg, hmax, hmem, hkey, hbound⟩ := pyMax_spec gainKey _ h1 h2
  refine ⟨g, kg, ?_, hmem, hkey, hbound⟩
  rw [analyze_data_topGainer data hd,
    if_neg (by simpa [List.isEmpty_iff] using h1), hmax]
  rfl

/-- Witness for C8: the spec's example batch with changes +5.2%, -3.1%,
+1.0% has 2 gainers, 1 loser, and reports the +5.2% coin as top gainer. -/
theorem analyze_top_gainer_witness :
    (analyze_data [sample 1 "+5.2%", sample 2 "-3.1%", sample 3 "+1.0%"]).gainers.length
        = 2 ∧
    (analyze_data [sample 1 "+5.2%", sample 2 "-3.1%", sample 3 "+1.0%"]).losers.length
        = 1 ∧
    (analyze_data [sample 1 "+5.2%", sample 2 "-3.1%", sample 3 "+1.0%"]).topGainer
        = some (some (sample 1 "+5.2%")) := by
  obtain ⟨g, kg, h1, h2, h3, h4⟩ :=
    analyze_top_gainer [sample 1 "+5.2%", sample 2 "-3.1%", sample 3 "+1.0%"]
      (by decide) (by decide)
  exact ⟨by decide, by decide, by decide⟩

/-- Counterexample to claim C2: with losers -5.0% and -1.0%, the code
reports the -1.0% coin — the loser of smallest stripped value, which is
the smallest-magnitude loss, not the largest-magnitude one. -/
theorem top_loser_smallest_magnitude_cex :
    (analyze_data [sample 1 "-5.0%", sample 2 "-1.0%"]).topLoser =
      some (some (sample 2 "-1.0%")) ∧
    sample 2 "-1.0%" ≠ sample 1 "-5.0%" ∧
    loseKey (sample 1 "-5.0%") = some ⟨false, 50, 1⟩ ∧
    loseKey (sample 2 "-1.0%") = some ⟨false, 10, 1⟩ ∧
    Dec.toRat ⟨false, 10, 1⟩ < Dec.toRat ⟨false, 50, 1⟩ := by
  refine ⟨by decide, by decide, by decide, by decide, ?_⟩
  norm_num [Dec.toRat, Dec.toInt]

/-- Claim C2 as amended: when the loser partition is non-empty and the
stripped change values convert, the reported top loser is a loser whose
change value after stripping the minus sign and percent suffix is minimal
— the smallest-magnitude loss. -/
theorem analyze_top_loser_min (data : List Coin)
    (h1 : (analyze_data data).losers ≠ [])
    (h2 : ∀ c ∈ (analyze_data data).losers, (loseKey c).isSome = true) :
    ∃ g kg, (analyze_data data).topLoser = some (some g) ∧
      g ∈ (analyze_data data).losers ∧ loseKey g = some kg ∧
      ∀ c ∈ (analyze_data data).losers, ∀ kc, loseKey c = some kc →
        kg.toRat ≤ kc.toRat := by
  have hd : data ≠ [] := by
    intro h
    subst h
    exact h1 (by rw [analyze_data_losers]; rfl)
  rw [analyze_data_losers] at h1 h2 ⊢
  obtain ⟨g, kg, hmin, hmem, hkey, hbound⟩ := pyMin_spec loseKey _ h1 h2
  refine ⟨g, kg, ?_, hmem, hkey, hbound⟩
  rw [analyze_data_topLoser data hd,
    if_neg (by simpa [List.isEmpty_iff] using h1), hmin]
  rfl

/-- Witness for C2 as amended: among losers -5.0% and -1.0% the reported
top loser is the -1.0% coin. -/
theorem analyze_top_loser_min_witness :
    (analyze_data [sample 1 "-5.0%", sample 2 "-1.0%"]).topLoser =
      some (some (sample 2 "-1.0%")) := by
  obtain ⟨g, kg, h1, h2, h3, h4⟩ :=
    analyze_top_loser_min [sample 1 "-5.0%", sample 2 "-1.0%"]
      (by decide) (by decide)
  decide

/-- Counterexample to claim C4: when the browser session fails to launch,
the exception is raised before the protecting block and propagates out of
main uncaught. -/
theorem main_launch_error_cex :
    main_run ⟨some "SessionNotCreatedException", none, [], "t",
      FileState.absent, true⟩ =
      Except.error "SessionNotCreatedException" := rfl

/-- Claim C4 as amended: whenever the browser session launches and every
signed change value of the extracted batch converts in analysis, main
completes normally, reporting any page, row or persistence failure only
through printed messages; a launch failure instead propagates out of main
as an uncaught exception. -/
theorem main_no_uncaught (env : Env) (h1 : env.launchError = none)
    (h2 : analyzeRaises (scrapedData env) = false) :
    main_run env = Except.ok (scrapedData env,
      if (scrapedData env).isEmpty then env.fstate
      else (save_to_csv (scrapedData env) env.fstate env.writeOk).2) := by
  unfold main_run scrape_crypto_prices
  rw [h1]
  by_cases he : (scrapedData env).isEmpty
  · simp [he]
  · simp [he, h2]

/-- Witness for C4 as amended: a run that scrapes one well-formed row,
saves it to a fresh store and analyzes it ends normally. -/
theorem main_no_uncaught_witness :
    main_run ⟨none, none, ["\nBitcoin\nBTC\n$60,000\n+2.5%\n$1.2T"], "t",
        FileState.absent, true⟩ =
      Except.ok (scrapedData ⟨none, none,
          ["\nBitcoin\nBTC\n$60,000\n+2.5%\n$1.2T"], "t", FileState.absent, true⟩,
        FileState.present (scrapedData ⟨none, none,
          ["\nBitcoin\nBTC\n$60,000\n+2.5%\n$1.2T"], "t",
          FileState.absent, true⟩)) := by
  rw [main_no_uncaught ⟨none, none, ["\nBitcoin\nBTC\n$60,000\n+2.5%\n$1.2T"],
    "t", FileState.absent, true⟩ rfl (by decide)]
  rfl
